import Mathlib

/-!
Verification of the ingestion-and-normalization pipeline of the
Claude-Code-Usage-Monitor repository (`claude_monitor/data/reader.py` and
`claude_monitor/data/writer.py`), as a shallow embedding in Lean 4.

Python dictionaries parsed from JSONL lines are embedded as typed records
(`RawRecord`) whose optional fields model absent keys; Python truthiness on
strings (`None` and `""` are falsy) is modelled by `truthy`/`orStr`.
Components of the repository that live outside the two source files
(`TimestampProcessor`, `TokenExtractor`, `DataConverter`, `PricingCalculator`,
the `UsageEntry`/`CostMode` models) are modelled from the spec and marked so
in their doc comments.
-/

namespace ClaudeMonitor

/-- Python truthiness for an optional string: `None` and `""` are falsy.
`truthy x` is `some s` exactly when `x` holds a non-empty string. -/
def truthy : Option String → Option String
  | some s => if s = "" then none else some s
  | none => none

/-- Python `a or b` on optional strings, with the result again filtered by
truthiness (callers in the source always guard the result with `if x`). -/
def orStr (a b : Option String) : Option String :=
  match truthy a with
  | some s => some s
  | none => truthy b

/-- Python `a or b` on optional numbers: `None`, `0` and `0.0` are falsy. -/
def orNum (a b : Option Int) : Option Int :=
  match a with
  | some x => if x ≠ 0 then some x else b
  | none => b

/-- One block of a structured `message.content` list: either not a dict
(skipped by the source) or a dict with a `type` tag and optional `text`. -/
inductive ContentBlock where
  | nonDict : ContentBlock
  | dict (btype : String) (btext : Option String) : ContentBlock
deriving Repr, DecidableEq

/-- The `message.content` value: a plain string, a list of blocks, or some
other JSON value (neither `str` nor `list`). -/
inductive Content where
  | str (s : String) : Content
  | blocks (bs : List ContentBlock) : Content
  | other : Content
deriving Repr, DecidableEq

/-- The nested token-usage sub-object a raw record may carry.
Modelled from the spec: TokenExtractor §4.2 must tolerate a nested usage
sub-object; its numeric fields default to 0 when absent. -/
structure Usage where
  input_tokens : Option Nat := none
  output_tokens : Option Nat := none
  cache_creation_tokens : Option Nat := none
  cache_read_tokens : Option Nat := none
deriving Repr, DecidableEq

/-- The nested `message` sub-object of a raw record (`message.id`,
`message.content`, and the nested usage sub-object). -/
structure Message where
  id : Option String := none
  content : Option Content := none
  usage : Option Usage := none
deriving Repr, DecidableEq

/-- A raw record parsed from one JSONL line, restricted to the fields the
reader inspects.  Absent keys are `none`.  `user_text` models the internal
`_user_text` key the linker writes into the dict. -/
structure RawRecord where
  type : Option String := none
  uuid : Option String := none
  parentUuid : Option String := none
  timestamp : Option String := none
  message : Option Message := none
  message_id : Option String := none
  request_id : Option String := none
  requestId : Option String := none
  keyword : Option String := none
  model : Option String := none
  cost : Option Int := none
  cost_usd : Option Int := none
  input_tokens : Option Nat := none
  output_tokens : Option Nat := none
  cache_creation_tokens : Option Nat := none
  cache_read_tokens : Option Nat := none
  user_text : Option String := none
deriving Repr, DecidableEq

/-- Cost mode. Modelled from the spec §4.3: `AUTO`, `CALCULATE`,
`USE_PROVIDED` (the `CostMode` enum lives outside the two source files). -/
inductive CostMode where
  | auto | calculate | useProvided
deriving Repr, DecidableEq

/-- The canonical usage entry. Modelled from the spec §3 (the `UsageEntry`
model class lives outside the two source files): timestamp (an instant,
modelled as integer epoch seconds), four token counts, cost, model,
identifiers, optional keyword, and the linked prompt text. -/
structure UsageEntry where
  timestamp : Int
  input_tokens : Nat
  output_tokens : Nat
  cache_creation_tokens : Nat
  cache_read_tokens : Nat
  cost_usd : Int
  model : String
  message_id : String
  request_id : String
  keyword : Option String
  text : String
deriving Repr, DecidableEq

/-- Modelled from the spec §4.1: `TimestampProcessor.parse_timestamp` turns a
timestamp string into a timezone-aware instant, or nothing when unparseable;
instants are modelled as integer epoch seconds obtained by parsing a decimal
digit string, and any other string models an unparseable timestamp (in
particular the empty string parses to nothing). -/
def parse_timestamp (s : String) : Option Int :=
  let cs := s.toList
  if cs.isEmpty then none
  else if cs.all Char.isDigit then
    some (cs.foldl (fun n c => 10 * n + ((c.toNat : Int) - 48)) 0)
  else none

/-- The four extracted token counts (the keys of the mapping
`TokenExtractor.extract_tokens` returns). -/
structure TokenData where
  input_tokens : Nat
  output_tokens : Nat
  cache_creation_tokens : Nat
  cache_read_tokens : Nat
deriving Repr, DecidableEq

/-- Modelled from the spec §4.2: `TokenExtractor.extract_tokens` resolves each
count from the flat top-level field or, failing that, from the nested usage
sub-object, defaulting to 0; it never fails. -/
def extract_tokens (data : RawRecord) : TokenData :=
  let nested := data.message.bind Message.usage
  { input_tokens := (data.input_tokens.orElse fun _ => nested.bind Usage.input_tokens).getD 0
    output_tokens := (data.output_tokens.orElse fun _ => nested.bind Usage.output_tokens).getD 0
    cache_creation_tokens :=
      (data.cache_creation_tokens.orElse fun _ => nested.bind Usage.cache_creation_tokens).getD 0
    cache_read_tokens :=
      (data.cache_read_tokens.orElse fun _ => nested.bind Usage.cache_read_tokens).getD 0 }

/-- Modelled from the spec §3: `DataConverter.extract_model_name` yields the
record's model identifier, defaulting to "unknown" when absent. -/
def extract_model_name (data : RawRecord) : String :=
  data.model.getD "unknown"

/-- Modelled from the spec §4.3: the per-token rate table; the concrete rates
are illustrative (no claim depends on them), unknown models fall back to the
default rate. -/
def model_rate (model : String) : Int :=
  if model = "claude-sonnet-4-5" then 3 else 1

/-- Modelled from the spec §4.3: cost computed from token counts and the
model rate table (cost values are modelled as scaled integers). -/
def compute_cost (td : TokenData) (model : String) : Int :=
  (td.input_tokens + td.output_tokens + td.cache_creation_tokens +
    td.cache_read_tokens : Nat) * model_rate model

/-- Modelled from the spec §4.3: `PricingCalculator.calculate_cost_for_entry`.
`AUTO` uses the supplied cost when present, else computes; `CALCULATE` always
computes; `USE_PROVIDED` uses the supplied cost, defaulting to 0. -/
def calculate_cost_for_entry (td : TokenData) (model : String)
    (supplied : Option Int) (mode : CostMode) : Int :=
  match mode with
  | CostMode.useProvided => supplied.getD 0
  | CostMode.calculate => compute_cost td model
  | CostMode.auto =>
    match supplied with
    | some c => c
    | none => compute_cost td model

/-- Source reader.py lines 154-157: scan a structured content list for the
first dict block whose `type` is "text" and take its `text` (default ""). -/
def extract_text_from_blocks : List ContentBlock → String
  | [] => ""
  | ContentBlock.nonDict :: rest => extract_text_from_blocks rest
  | ContentBlock.dict btype btext :: rest =>
    if btype = "text" then btext.getD "" else extract_text_from_blocks rest

/-- Source reader.py lines 149-157 (and 274-283): extract the textual content
of a `message.content` value: the plain string itself, the first text-typed
block of a list, and "" otherwise (also when content is absent). -/
def extract_content_text : Option Content → String
  | some (Content.str s) => s
  | some (Content.blocks bs) => extract_text_from_blocks bs
  | _ => ""

/-- One step of the reader's first pass (reader.py lines 143-160): a record of
type "user" with a truthy uuid and truthy extracted text stores its text under
its own uuid (a later store for the same uuid overwrites; lookup takes the
most recent store, i.e. the first match in this prepend representation). -/
def pass1_step (m : List (String × String)) (data : RawRecord) :
    List (String × String) :=
  if data.type = some "user" then
    let text := extract_content_text (data.message.bind Message.content)
    match data.uuid with
    | some u => if u ≠ "" ∧ text ≠ "" then (u, text) :: m else m
    | none => m
  else m

/-- The reader's first pass: fold `pass1_step` over all parsed lines of one
file, producing the `user_messages` lookup table. -/
def build_user_messages (lines : List RawRecord) : List (String × String) :=
  lines.foldl pass1_step []

/-- Python dict lookup on the prepend representation: the most recent store
for a key is the first match. -/
def mapLookup (m : List (String × String)) (k : String) : Option String :=
  (m.find? fun p => p.1 = k).map Prod.snd

/-- Source `_create_unique_hash` (reader.py lines 217-223): the dedup key
`message_id ++ ":" ++ request_id` where `message_id` is resolved as the
top-level `message_id` or else `message.id`, and the request component as
`requestId` or else `request_id`; `None` when either resolves falsy. -/
def create_unique_hash (data : RawRecord) : Option String :=
  let message_id := orStr data.message_id (data.message.bind Message.id)
  let request_id := orStr data.requestId data.request_id
  match message_id, request_id with
  | some m, some r => some (m ++ ":" ++ r)
  | _, _ => none

/-- Source `_update_processed_hashes` (reader.py lines 226-230): add the
record's dedup key to the set when it exists. -/
def update_processed_hashes (data : RawRecord) (hashes : List String) :
    List String :=
  match create_unique_hash data with
  | some h => if h ∈ hashes then hashes else h :: hashes
  | none => hashes

/-- The recency test of `_should_process_entry` (reader.py lines 206-212): a
record fails only when it carries a truthy timestamp string that parses and
is strictly before the cutoff. -/
def entry_time_ok (data : RawRecord) (cutoff : Option Int) : Bool :=
  match cutoff with
  | none => true
  | some c =>
    match data.timestamp with
    | none => true
    | some ts =>
      if ts = "" then true
      else
        match parse_timestamp ts with
        | none => true
        | some t => decide (c ≤ t)

/-- Source `_should_process_entry` (reader.py lines 199-214): reject a record
whose parsed timestamp is strictly before the cutoff, then reject it when its
dedup key exists and is already in the processed set. -/
def should_process_entry (data : RawRecord) (cutoff : Option Int)
    (hashes : List String) : Bool :=
  if entry_time_ok data cutoff then
    match create_unique_hash data with
    | some h => decide (h ∉ hashes)
    | none => true
  else false

/-- Character-level worker for Python `str.split()`: `acc` holds the current
word's characters in reverse; words are emitted at whitespace boundaries and
empty pieces never appear. -/
def split_words_aux : List Char → List Char → List String
  | [], acc => if acc.isEmpty then [] else [String.mk acc.reverse]
  | c :: cs, acc =>
    if c.isWhitespace then
      if acc.isEmpty then split_words_aux cs []
      else String.mk acc.reverse :: split_words_aux cs []
    else split_words_aux cs (c :: acc)

/-- Python `text.strip().split()`: split on runs of whitespace, discarding
empty pieces (stripping first is subsumed by discarding empties). -/
def py_split_words (s : String) : List String :=
  split_words_aux s.toList []

/-- Python slicing `s[:n]` on a string, by code points. -/
def pySlice (s : String) (n : Nat) : String :=
  String.mk (s.toList.take n)

/-- Source reader.py lines 286-290: derive a keyword from the linked text —
join all words when there are at most 5, else the first 3, then hard-truncate
to the first 37 characters plus "..." when longer than 40. -/
def derive_keyword (text : String) : String :=
  let words := py_split_words text
  let keyword :=
    if words.length ≤ 5 then String.intercalate " " (words.take 5)
    else String.intercalate " " (words.take 3)
  if keyword.length > 40 then pySlice keyword 37 ++ "..." else keyword

/-- Source reader.py lines 271-283: the text attached to an entry — the
linked `_user_text` when truthy, else the text extracted from the record's
own `message.content`. -/
def resolved_text (data : RawRecord) : String :=
  let t0 := (data.user_text).getD ""
  if t0 = "" then extract_content_text (data.message.bind Message.content) else t0

/-- Source `_map_to_usage_entry` (reader.py lines 236-313): reject a record
with unparseable timestamp or all-zero extracted tokens, otherwise build the
canonical `UsageEntry` (model, cost, identifier fallback chains, keyword
taken verbatim when truthy else derived from the resolved text). -/
def map_to_usage_entry (data : RawRecord) (mode : CostMode) : Option UsageEntry :=
  match parse_timestamp (data.timestamp.getD "") with
  | none => none
  | some timestamp =>
    let td := extract_tokens data
    if td.input_tokens = 0 ∧ td.output_tokens = 0 ∧
        td.cache_creation_tokens = 0 ∧ td.cache_read_tokens = 0 then none
    else
      let model := extract_model_name data
      let cost_usd := calculate_cost_for_entry td model (orNum data.cost data.cost_usd) mode
      let message_id := (orStr data.message_id (data.message.bind Message.id)).getD ""
      let request_id := (orStr data.request_id data.requestId).getD "unknown"
      let text := resolved_text data
      let keyword :=
        if truthy data.keyword = none ∧ text ≠ "" then some (derive_keyword text)
        else data.keyword
      some { timestamp := timestamp
             input_tokens := td.input_tokens
             output_tokens := td.output_tokens
             cache_creation_tokens := td.cache_creation_tokens
             cache_read_tokens := td.cache_read_tokens
             cost_usd := cost_usd
             model := model
             message_id := message_id
             request_id := request_id
             keyword := keyword
             text := text }

/-- Source reader.py lines 171-175: the second pass attaches the stored user
text to a record of type "assistant" whose truthy `parentUuid` is a stored
key (writing it into the record's `_user_text` field). -/
def linkRecord (userMsgs : List (String × String)) (data : RawRecord) : RawRecord :=
  if data.type = some "assistant" then
    match data.parentUuid with
    | some pu =>
      if pu ≠ "" then
        match mapLookup userMsgs pu with
        | some t => { data with user_text := some t }
        | none => data
      else data
    | none => data
  else data

/-- The pipeline state threaded through record processing: accumulated
entries, accumulated raw records (the processed, possibly linked dicts), and
the processed-hashes set. -/
abbrev PipeState := List UsageEntry × List RawRecord × List String

/-- One iteration of the reader's second-pass loop (reader.py lines 166-184):
skip the record when `_should_process_entry` rejects it; otherwise link it,
map it, and on success append the entry and record its dedup key; the
(possibly linked) record itself is appended to the raw list either way. -/
def processRecord (userMsgs : List (String × String)) (mode : CostMode)
    (cutoff : Option Int) (st : PipeState) (data : RawRecord) : PipeState :=
  if should_process_entry data cutoff st.2.2 then
    let d := linkRecord userMsgs data
    match map_to_usage_entry d mode with
    | some e => (st.1 ++ [e], st.2.1 ++ [d], update_processed_hashes d st.2.2)
    | none => (st.1, st.2.1 ++ [d], st.2.2)
  else st

/-- Source `_process_single_file` (reader.py lines 116-196): build the user
message table in a first pass over the file's parsed lines, then fold the
second-pass loop over the same lines, starting from empty entry and raw
accumulators and the shared processed-hashes set. -/
def process_single_file (lines : List RawRecord) (mode : CostMode)
    (cutoff : Option Int) (hashes : List String) : PipeState :=
  lines.foldl (processRecord (build_user_messages lines) mode cutoff) ([], [], hashes)

/-- The per-file loop of `load_usage_entries` (reader.py lines 61-73): each
file is processed with the shared hash set and its entries and raw records
are appended to the global accumulators. -/
def process_files (files : List (List RawRecord)) (mode : CostMode)
    (cutoff : Option Int) : PipeState :=
  files.foldl
    (fun st lines =>
      let r := process_single_file lines mode cutoff st.2.2
      (st.1 ++ r.1, st.2.1 ++ r.2.1, r.2.2))
    ([], [], [])

/-- The recency cutoff of `load_usage_entries` (reader.py lines 48-50):
`now - hours_back` hours, absent when `hours_back` is `None` or `0`
(Python `if hours_back:`). -/
def cutoff_time_of (hours_back : Option Nat) (now : Int) : Option Int :=
  match hours_back with
  | some h => if h = 0 then none else some (now - 3600 * (h : Int))
  | none => none

/-- The timestamp order used by the final sort (`key=lambda e: e.timestamp`). -/
def tsLe (a b : UsageEntry) : Prop := a.timestamp ≤ b.timestamp

instance : DecidableRel tsLe := fun a b => Int.decLe a.timestamp b.timestamp

/-- Source `load_usage_entries` (reader.py lines 37-77): files are modelled as
lists of already-parsed records (file discovery yields this list; JSON-parse
failures are already dropped by the per-line parser).  When no files were
found the result is `([], none)` regardless of `include_raw`; otherwise all
files are processed against the shared dedup set, the entry list is sorted
ascending by timestamp (Python's stable sort, modelled by insertion sort) and
the raw list is returned only when `include_raw` is set. -/
def load_usage_entries (files : List (List RawRecord)) (hours_back : Option Nat)
    (now : Int) (mode : CostMode) (include_raw : Bool) :
    List UsageEntry × Option (List RawRecord) :=
  let cutoff := cutoff_time_of hours_back now
  if files.isEmpty then ([], none)
  else
    let res := process_files files mode cutoff
    (List.insertionSort tsLe res.1, if include_raw then some res.2.1 else none)

/-- A JSON value stored in a log-entry object, as far as the writer inspects
one: strings, numbers (floats modelled as scaled integers), null, and
one level of nested object (the `message` sub-object whose `id` the writer
reads).  Deeper structure is not inspected by the writer. -/
inductive JVal where
  | vstr (s : String) : JVal
  | vnum (n : Int) : JVal
  | vnull : JVal
  | vobj (fields : List (String × JVal)) : JVal

/-- Python dict `get`: the value at a key, `None` when absent (first match —
keys of a parsed JSON object are unique). -/
def jGet (e : List (String × JVal)) (k : String) : Option JVal :=
  (e.find? fun p => p.1 = k).map Prod.snd

/-- Python dict assignment `e[k] = v`: replace the value in place when the key
exists (keeping its position), else append the new key. -/
def jSet (e : List (String × JVal)) (k : String) (v : JVal) : List (String × JVal) :=
  if (e.find? fun p => p.1 = k).isSome then
    e.map fun p => if p.1 = k then (k, v) else p
  else e ++ [(k, v)]

/-- Python truthiness of a JSON value (`""`, `0`, `None`, `{}` are falsy). -/
def jTruthy : JVal → Bool
  | JVal.vstr s => s ≠ ""
  | JVal.vnum n => n ≠ 0
  | JVal.vnull => false
  | JVal.vobj fs => !fs.isEmpty

/-- Python `a or b` on optional JSON values. -/
def jOr (a b : Option JVal) : Option JVal :=
  match a with
  | some v => if jTruthy v then some v else b
  | none => b

/-- Python `v == s` between a JSON value and a string: true only for an equal
string value. -/
def jval_eq_str (v : JVal) (s : String) : Bool :=
  match v with
  | JVal.vstr t => t == s
  | _ => false

/-- One line of the usage log as the writer's read loop sees it: a
whitespace-only line, a line that fails JSON parsing, or a parsed entry
object. -/
inductive LogLine where
  | blank : LogLine
  | malformed (s : String) : LogLine
  | entry (e : List (String × JVal)) : LogLine

/-- The parseable entry objects of a log file, in order (blank and malformed
lines are skipped by the writer's read loop). -/
def parsed_entries (file : List LogLine) : List (List (String × JVal)) :=
  file.filterMap fun l =>
    match l with
    | LogLine.entry e => some e
    | _ => none

/-- Source writer.py lines 115-118: the identity used by the keyword patch —
`entry.get("message_id") or message.get("id")` (the latter only when
`message` is a dict), compared against the target id with Python `==`. -/
def entry_match_id (e : List (String × JVal)) (message_id : String) : Bool :=
  let mid := jOr (jGet e "message_id")
    (match jGet e "message" with
     | some (JVal.vobj m) => jGet m "id"
     | _ => none)
  match mid with
  | some v => jval_eq_str v message_id
  | none => false

/-- One iteration of the keyword patch's read loop (writer.py lines 110-123):
blank and unparseable lines are skipped; a parsed entry whose id matches gets
its `keyword` field set (and `found` becomes true); every parsed entry is
appended to the in-memory list. -/
def patch_read_step (message_id keyword : String)
    (acc : List (List (String × JVal)) × Bool) (line : LogLine) :
    List (List (String × JVal)) × Bool :=
  match line with
  | LogLine.blank => acc
  | LogLine.malformed _ => acc
  | LogLine.entry e =>
    if entry_match_id e message_id then
      (acc.1 ++ [jSet e "keyword" (JVal.vstr keyword)], true)
    else (acc.1 ++ [e], acc.2)

/-- Source `add_keyword_to_existing_entry` (writer.py lines 92-141): read all
lines into memory, patching the keyword of every entry whose id matches; when
no entry matched, report false and leave the file as it was (the function
returns before any write); otherwise rewrite the whole file from the
in-memory entry list, one serialized entry per line, and report true (the
rewrite itself is modelled as succeeding; an I/O failure there would return
false from the source's final try/except). -/
def add_keyword_to_existing_entry (file : List LogLine)
    (message_id keyword : String) : Bool × List LogLine :=
  let readPass := file.foldl (patch_read_step message_id keyword) ([], false)
  if readPass.2 then (true, readPass.1.map LogLine.entry)
  else (false, file)

/-- The filesystem environment `log_usage_entry` runs against: whether the
`mkdir` call raises and whether the open-for-append/write raises. -/
structure FsEnv where
  mkdirRaises : Bool
  writeRaises : Bool

/-- The JSON object `log_usage_entry` appends (writer.py lines 64-77): the
fixed fields, plus `keyword` only when truthy. -/
def build_log_entry (timestamp : Int) (model : String)
    (input_tokens output_tokens cache_creation_tokens cache_read_tokens : Nat)
    (cost_usd : Int) (message_id request_id : String) (keyword : Option String) :
    List (String × JVal) :=
  [("timestamp", JVal.vnum timestamp),
   ("model", JVal.vstr model),
   ("input_tokens", JVal.vnum input_tokens),
   ("output_tokens", JVal.vnum output_tokens),
   ("cache_creation_tokens", JVal.vnum cache_creation_tokens),
   ("cache_read_tokens", JVal.vnum cache_read_tokens),
   ("cost_usd", JVal.vnum cost_usd),
   ("message_id", JVal.vstr message_id),
   ("request_id", JVal.vstr request_id)] ++
  (match truthy keyword with
   | some k => [("keyword", JVal.vstr k)]
   | none => [])

/-- Source `log_usage_entry` (writer.py lines 33-86), modelled as `Except`:
an exception escaping to the caller is `Except.error`, a normal return is
`Except.ok`.  When `log_path` is passed as a string (its declared type),
`log_path.parent` is attribute access on a `str` and raises `AttributeError`
before anything is written; when `log_path` is `None` a `Path` is resolved
from the candidate list and `mkdir` runs outside the try block (so its
failure also raises), while a failure of the guarded open/append returns
`False`. -/
def log_usage_entry (env : FsEnv) (timestamp : Int) (model : String)
    (input_tokens output_tokens : Nat) (keyword : Option String)
    (cache_creation_tokens cache_read_tokens : Nat) (cost_usd : Int)
    (message_id request_id : String) (log_path : Option String) :
    Except String Bool :=
  match log_path with
  | some _ => Except.error "AttributeError"
  | none =>
    if env.mkdirRaises then Except.error "OSError"
    else
      let _entry := build_log_entry timestamp model input_tokens output_tokens
        cache_creation_tokens cache_read_tokens cost_usd message_id request_id keyword
      if env.writeRaises then Except.ok false else Except.ok true

/-! ### Infrastructure lemmas about the processing fold -/

/-- A fold preserves any invariant its step preserves. -/
theorem foldl_preserve {α σ : Type} (P : σ → Prop) (f : σ → α → σ)
    (hf : ∀ s a, P s → P (f s a)) : ∀ (l : List α) (s : σ), P s → P (l.foldl f s)
  | [], _, hs => hs
  | a :: l, s, hs => foldl_preserve P f hf l (f s a) (hf s a hs)

/-- Linking a record only writes its `_user_text` field, so its dedup key is
unchanged. -/
theorem create_unique_hash_linkRecord (um : List (String × String)) (r : RawRecord) :
    create_unique_hash (linkRecord um r) = create_unique_hash r := by
  unfold linkRecord
  split <;> [skip; rfl]
  split <;> [skip; rfl]
  split <;> [skip; rfl]
  split <;> rfl

/-- A record that passes `_should_process_entry` has a dedup key that is not
yet in the processed set. -/
theorem should_process_not_mem {r : RawRecord} {cutoff : Option Int}
    {hs : List String} {h : String}
    (hsp : should_process_entry r cutoff hs = true)
    (hh : create_unique_hash r = some h) : h ∉ hs := by
  unfold should_process_entry at hsp
  rw [hh] at hsp
  by_cases ht : entry_time_ok r cutoff = true
  · rw [if_pos ht] at hsp
    simpa using hsp
  · rw [if_neg ht] at hsp
    exact absurd hsp (by simp)

/-- `_update_processed_hashes` never removes a hash. -/
theorem mem_update_processed_hashes {x : String} {hs : List String}
    (d : RawRecord) (hx : x ∈ hs) : x ∈ update_processed_hashes d hs := by
  unfold update_processed_hashes
  cases create_unique_hash d with
  | none => exact hx
  | some h => by_cases hmem : h ∈ hs <;> simp [hmem, hx]

/-- `_update_processed_hashes` records the key of the record it is given. -/
theorem update_processed_hashes_self {d : RawRecord} {h : String}
    {hs : List String} (hh : create_unique_hash d = some h) :
    h ∈ update_processed_hashes d hs := by
  unfold update_processed_hashes
  rw [hh]
  by_cases hmem : h ∈ hs <;> simp [hmem]

/-- One processing step changes the state by appending to the entry and raw
accumulators and updating the hash set, independently of the accumulated
prefixes. -/
theorem processRecord_shift (um : List (String × String)) (mode : CostMode)
    (cutoff : Option Int) (st : PipeState) (r : RawRecord) :
    processRecord um mode cutoff st r =
      (st.1 ++ (processRecord um mode cutoff ([], [], st.2.2) r).1,
       st.2.1 ++ (processRecord um mode cutoff ([], [], st.2.2) r).2.1,
       (processRecord um mode cutoff ([], [], st.2.2) r).2.2) := by
  unfold processRecord
  by_cases hsp : should_process_entry r cutoff st.2.2 = true
  · simp only [hsp, if_true]
    cases hm : map_to_usage_entry (linkRecord um r) mode <;> simp [hm]
  · simp [hsp]

/-- The fold of processing steps changes the state by appending the result of
the same fold run from empty accumulators, independently of the prefixes. -/
theorem foldl_processRecord_shift (um : List (String × String)) (mode : CostMode)
    (cutoff : Option Int) :
    ∀ (lines : List RawRecord) (st : PipeState),
      lines.foldl (processRecord um mode cutoff) st =
        (st.1 ++ (lines.foldl (processRecord um mode cutoff) ([], [], st.2.2)).1,
         st.2.1 ++ (lines.foldl (processRecord um mode cutoff) ([], [], st.2.2)).2.1,
         (lines.foldl (processRecord um mode cutoff) ([], [], st.2.2)).2.2)
  | [], st => by simp
  | a :: l, st => by
    simp only [List.foldl_cons]
    rw [processRecord_shift um mode cutoff st a]
    rw [foldl_processRecord_shift um mode cutoff l
      (st.1 ++ (processRecord um mode cutoff ([], [], st.2.2) a).1,
       st.2.1 ++ (processRecord um mode cutoff ([], [], st.2.2) a).2.1,
       (processRecord um mode cutoff ([], [], st.2.2) a).2.2)]
    rw [foldl_processRecord_shift um mode cutoff l
      (processRecord um mode cutoff ([], [], st.2.2) a)]
    simp [List.append_assoc]

/-- One step of the per-file loop of `load_usage_entries` equals continuing
the record fold on the accumulated state. -/
theorem file_step_eq (mode : CostMode) (cutoff : Option Int) (st : PipeState)
    (lines : List RawRecord) :
    (st.1 ++ (process_single_file lines mode cutoff st.2.2).1,
     st.2.1 ++ (process_single_file lines mode cutoff st.2.2).2.1,
     (process_single_file lines mode cutoff st.2.2).2.2) =
      lines.foldl (processRecord (build_user_messages lines) mode cutoff) st := by
  unfold process_single_file
  rw [foldl_processRecord_shift (build_user_messages lines) mode cutoff lines st]

/-- The whole per-file loop is the record fold threaded across all files. -/
theorem process_files_eq_foldl (files : List (List RawRecord)) (mode : CostMode)
    (cutoff : Option Int) :
    process_files files mode cutoff =
      files.foldl
        (fun st lines => lines.foldl (processRecord (build_user_messages lines) mode cutoff) st)
        ([], [], []) := by
  unfold process_files
  have hstep :
      (fun (st : PipeState) lines =>
        let r := process_single_file lines mode cutoff st.2.2
        (st.1 ++ r.1, st.2.1 ++ r.2.1, r.2.2)) =
      fun (st : PipeState) lines =>
        lines.foldl (processRecord (build_user_messages lines) mode cutoff) st := by
    funext st lines
    exact file_step_eq mode cutoff st lines
  rw [hstep]

/-- The entries a raw-record list gives rise to under the mapper. -/
def entriesOfRaws (mode : CostMode) (rs : List RawRecord) : List UsageEntry :=
  rs.filterMap fun d => map_to_usage_entry d mode

/-- One processing step preserves "the accumulated entries are exactly the
successfully mapped raw records". -/
theorem processRecord_entries (um : List (String × String)) (mode : CostMode)
    (cutoff : Option Int) (st : PipeState) (r : RawRecord)
    (hinv : st.1 = entriesOfRaws mode st.2.1) :
    (processRecord um mode cutoff st r).1 =
      entriesOfRaws mode (processRecord um mode cutoff st r).2.1 := by
  unfold processRecord
  by_cases hsp : should_process_entry r cutoff st.2.2 = true
  · simp only [hsp, if_true]
    cases hm : map_to_usage_entry (linkRecord um r) mode with
    | none => simp [entriesOfRaws, List.filterMap_append, hm] at hinv ⊢ ; exact hinv
    | some e => simp [entriesOfRaws, List.filterMap_append, hm] at hinv ⊢ ; exact hinv
  · simp only [hsp, if_false]
    exact hinv

/-- Across the whole run, the accumulated entry list is exactly the list of
successfully mapped raw records, in processing order. -/
theorem process_files_entries (files : List (List RawRecord)) (mode : CostMode)
    (cutoff : Option Int) :
    (process_files files mode cutoff).1 =
      entriesOfRaws mode (process_files files mode cutoff).2.1 := by
  rw [process_files_eq_foldl]
  refine foldl_preserve (fun (st : PipeState) => st.1 = entriesOfRaws mode st.2.1)
    (fun st lines => lines.foldl (processRecord (build_user_messages lines) mode cutoff) st)
    ?_ files ([], [], []) ?_
  · intro st lines hst
    exact foldl_preserve (fun (st : PipeState) => st.1 = entriesOfRaws mode st.2.1)
      (processRecord (build_user_messages lines) mode cutoff)
      (fun s a hs => processRecord_entries _ mode cutoff s a hs) lines st hst
  · rfl

/-! ### The deduplication invariant -/

/-- A raw record "hits" dedup key `h` for a mode when its dedup key is `h`
and it maps successfully to an entry. -/
def hash_hit (mode : CostMode) (h : String) (r : RawRecord) : Bool :=
  decide (create_unique_hash r = some h) && (map_to_usage_entry r mode).isSome

/-- The dedup invariant for one key `h`: once some processed record hit `h`,
`h` is in the processed set; and no processed record with key `h` follows a
record that hit `h`. -/
def HashInv (mode : CostMode) (h : String) (st : PipeState) : Prop :=
  ((∃ r ∈ st.2.1, hash_hit mode h r = true) → h ∈ st.2.2) ∧
  st.2.1.Pairwise fun a b => hash_hit mode h a = true → create_unique_hash b ≠ some h

/-- One processing step preserves the dedup invariant. -/
theorem processRecord_hashInv (um : List (String × String)) (mode : CostMode)
    (cutoff : Option Int) (st : PipeState) (r : RawRecord) (h : String)
    (hinv : HashInv mode h st) :
    HashInv mode h (processRecord um mode cutoff st r) := by
  obtain ⟨h1, h2⟩ := hinv
  unfold processRecord
  by_cases hsp : should_process_entry r cutoff st.2.2 = true
  · simp only [hsp, if_true]
    have hlink : create_unique_hash (linkRecord um r) = create_unique_hash r :=
      create_unique_hash_linkRecord um r
    have key : ∀ a ∈ st.2.1, hash_hit mode h a = true →
        create_unique_hash (linkRecord um r) ≠ some h := by
      intro a ha hha heq
      exact should_process_not_mem hsp (hlink ▸ heq) (h1 ⟨a, ha, hha⟩)
    cases hm : map_to_usage_entry (linkRecord um r) mode with
    | none =>
      refine ⟨?_, ?_⟩
      · rintro ⟨r', hr', hhit⟩
        rcases List.mem_append.mp hr' with hin | hin
        · exact h1 ⟨r', hin, hhit⟩
        · rw [List.mem_singleton.mp hin] at hhit
          simp [hash_hit, hm] at hhit
      · refine List.pairwise_append.mpr ⟨h2, List.pairwise_singleton _ _, ?_⟩
        intro a ha b hb hha
        rw [List.mem_singleton.mp hb]
        exact key a ha hha
    | some e =>
      refine ⟨?_, ?_⟩
      · rintro ⟨r', hr', hhit⟩
        rcases List.mem_append.mp hr' with hin | hin
        · exact mem_update_processed_hashes _ (h1 ⟨r', hin, hhit⟩)
        · rw [List.mem_singleton.mp hin] at hhit
          have : create_unique_hash (linkRecord um r) = some h := by
            have := (Bool.and_eq_true _ _).mp hhit
            exact of_decide_eq_true this.1
          exact update_processed_hashes_self this
      · refine List.pairwise_append.mpr ⟨h2, List.pairwise_singleton _ _, ?_⟩
        intro a ha b hb hha
        rw [List.mem_singleton.mp hb]
        exact key a ha hha
  · simp only [hsp, if_false]
    exact ⟨h1, h2⟩

/-- The dedup invariant holds at the end of the whole run. -/
theorem process_files_hashInv (files : List (List RawRecord)) (mode : CostMode)
    (cutoff : Option Int) (h : String) :
    HashInv mode h (process_files files mode cutoff) := by
  rw [process_files_eq_foldl]
  refine foldl_preserve (HashInv mode h)
    (fun st lines => lines.foldl (processRecord (build_user_messages lines) mode cutoff) st)
    ?_ files ([], [], []) ?_
  · intro st lines hst
    exact foldl_preserve (HashInv mode h)
      (processRecord (build_user_messages lines) mode cutoff)
      (fun s a hs => processRecord_hashInv _ mode cutoff s a h hs) lines st hst
  · exact ⟨fun hx => absurd hx (by simp), List.Pairwise.nil⟩

/-- A list in which no element satisfying `p` is ever followed by another
element satisfying `p` contains at most one such element. -/
theorem countP_le_one_of_pairwise {α : Type} (p : α → Bool) :
    ∀ l : List α, l.Pairwise (fun a b => ¬(p a = true ∧ p b = true)) →
      l.countP p ≤ 1
  | [], _ => by simp
  | a :: t, hp => by
    rcases List.pairwise_cons.mp hp with ⟨ha, ht⟩
    rw [List.countP_cons]
    by_cases hpa : p a = true
    · have hzero : t.countP p = 0 :=
        List.countP_eq_zero.mpr fun b hb hpb => ha b hb ⟨hpa, hpb⟩
      simp [hpa, hzero]
    · simp only [hpa, if_false, Bool.false_eq_true]
      have := countP_le_one_of_pairwise p t ht
      omega

/-! ### Basic facts about the sort order -/

instance : IsTotal UsageEntry tsLe :=
  ⟨fun a b => Int.le_total a.timestamp b.timestamp⟩

instance : IsTrans UsageEntry tsLe :=
  ⟨fun _ _ _ h1 h2 => le_trans h1 h2⟩

/-- Claim C10: when file discovery finds no JSONL files, `load_usage_entries`
returns the pair `([], none)`: the raw-record component is `none` rather than
an empty list, for every `hours_back`, mode and `include_raw` flag (also when
`include_raw` is true). -/
theorem claim_C10_no_files (hours_back : Option Nat) (now : Int)
    (mode : CostMode) (include_raw : Bool) :
    load_usage_entries [] hours_back now mode include_raw = ([], none) := rfl

/-- Claim C3: for every input record set spread over any number of files, the
entry list returned by `load_usage_entries` is non-decreasing by timestamp:
globally sorted ascending, regardless of per-file order. -/
theorem claim_C3_sorted (files : List (List RawRecord)) (hours_back : Option Nat)
    (now : Int) (mode : CostMode) (include_raw : Bool) :
    List.Sorted tsLe (load_usage_entries files hours_back now mode include_raw).1 := by
  unfold load_usage_entries
  by_cases h : files.isEmpty
  · simp [h]
  · simp only [h, if_false]
    exact List.sorted_insertionSort tsLe _

/-- Claim C6 is a code bug: for the declared input type of `log_usage_entry`
(`log_path: Optional[str]`), any string `log_path` makes `log_path.parent`
raise `AttributeError` before anything is written, so the failure to write is
a raised exception, not a `False` return — while the same call with
`log_path=None` and a healthy filesystem returns normally. -/
theorem claim_C6_failing_input :
    log_usage_entry ⟨false, false⟩ 0 "claude-sonnet-4-5" 300 150 none 0 0 0
        "m1" "r1" (some "/tmp/usage.jsonl") = Except.error "AttributeError" ∧
    log_usage_entry ⟨false, false⟩ 0 "claude-sonnet-4-5" 300 150 none 0 0 0
        "m1" "r1" none = Except.ok true := ⟨rfl, rfl⟩

/-! ### Claim C1: deduplication by (message_id, request_id) -/

/-- A record carrying `message_id`, a camel-case `requestId` and a snake-case
`request_id`: the dedup key uses `requestId` first, but the emitted entry's
`request_id` field uses `request_id` first. -/
def c1recA : RawRecord :=
  { timestamp := some "100", message_id := some "m", requestId := some "x",
    request_id := some "r", input_tokens := some 1 }

/-- A record with the same `message_id` and the same snake-case `request_id`
as `c1recA` but no camel-case `requestId`: its dedup key differs from
`c1recA`'s, yet the emitted entry carries the same identity pair. -/
def c1recB : RawRecord :=
  { timestamp := some "200", message_id := some "m", request_id := some "r",
    input_tokens := some 2 }

/-- Claim C1 is false as stated: both `c1recA` and `c1recB` have both
identity components present (truthy `message_id` and `request_id`), yet one
ingestion run over them emits two entries whose `(message_id, request_id)`
pair is `("m", "r")` — the dedup key resolves the request component from
`requestId` before `request_id`, while the entry field resolves it the other
way around, so the two records get distinct dedup keys `"m:x"` and `"m:r"`
but identical entry identity pairs. -/
theorem claim_C1_counterexample :
    ((load_usage_entries [[c1recA, c1recB]] none 0 CostMode.auto false).1.countP
      fun e => e.message_id == "m" && e.request_id == "r") = 2 ∧
    (truthy c1recA.message_id).isSome = true ∧
    (truthy c1recA.request_id).isSome = true ∧
    (truthy c1recB.message_id).isSome = true ∧
    (truthy c1recB.request_id).isSome = true := by
  refine ⟨?_, rfl, rfl, rfl, rfl⟩
  decide

/-- Claim C1 (amended): for every ingestion run, the emitted entries are
exactly the successfully mapped processed records in order, and for every
dedup key `h = message_id ++ ":" ++ request_id` — where `message_id` is
resolved as the top-level `message_id` or else `message.id` and the request
component as `requestId` (camel case) before `request_id` — at most one
processed record with key `h` maps to an entry; it is the first successfully
mapped occurrence, and no record with key `h` is even processed after it.
The sorted list `load_usage_entries` returns is a permutation of those mapped
records' entries.  (Uniqueness of the entries' own `(message_id, request_id)`
field pairs does not hold, as the counterexample shows, because the mapper
resolves `request_id` with the opposite fallback order.) -/
theorem claim_C1_amended (files : List (List RawRecord)) (hours_back : Option Nat)
    (now : Int) (mode : CostMode) (h : String) :
    (process_files files mode (cutoff_time_of hours_back now)).1 =
      entriesOfRaws mode (process_files files mode (cutoff_time_of hours_back now)).2.1 ∧
    (process_files files mode (cutoff_time_of hours_back now)).2.1.countP
      (hash_hit mode h) ≤ 1 ∧
    (process_files files mode (cutoff_time_of hours_back now)).2.1.Pairwise
      (fun a b => hash_hit mode h a = true → create_unique_hash b ≠ some h) ∧
    ((load_usage_entries files hours_back now mode true).1).Perm
      ((process_files files mode (cutoff_time_of hours_back now)).1) := by
  obtain ⟨hmem, hpair⟩ :=
    process_files_hashInv files mode (cutoff_time_of hours_back now) h
  refine ⟨process_files_entries files mode (cutoff_time_of hours_back now), ?_, hpair, ?_⟩
  · refine countP_le_one_of_pairwise (hash_hit mode h) _ (hpair.imp ?_)
    intro a b hab ⟨hpa, hpb⟩
    exact hab hpa (of_decide_eq_true ((Bool.and_eq_true _ _).mp hpb).1)
  · unfold load_usage_entries
    by_cases hemp : files.isEmpty
    · have : files = [] := List.isEmpty_iff.mp hemp
      subst this
      simp [process_files]
    · simp only [hemp, if_false]
      exact List.perm_insertionSort tsLe _

/-! ### Claim C2: all-zero-token records never produce entries -/

/-- Characterization of a successful map: the timestamp parsed, the extracted
tokens are not all zero, and the entry is built field-by-field from the
record. -/
theorem map_to_usage_entry_eq_some {data : RawRecord} {mode : CostMode}
    {e : UsageEntry} (hm : map_to_usage_entry data mode = some e) :
    ∃ ts, parse_timestamp (data.timestamp.getD "") = some ts ∧
      ¬((extract_tokens data).input_tokens = 0 ∧ (extract_tokens data).output_tokens = 0 ∧
        (extract_tokens data).cache_creation_tokens = 0 ∧
        (extract_tokens data).cache_read_tokens = 0) ∧
      e = { timestamp := ts
            input_tokens := (extract_tokens data).input_tokens
            output_tokens := (extract_tokens data).output_tokens
            cache_creation_tokens := (extract_tokens data).cache_creation_tokens
            cache_read_tokens := (extract_tokens data).cache_read_tokens
            cost_usd := calculate_cost_for_entry (extract_tokens data)
              (extract_model_name data) (orNum data.cost data.cost_usd) mode
            model := extract_model_name data
            message_id := (orStr data.message_id (data.message.bind Message.id)).getD ""
            request_id := (orStr data.request_id data.requestId).getD "unknown"
            keyword :=
              if truthy data.keyword = none ∧ resolved_text data ≠ "" then
                some (derive_keyword (resolved_text data))
              else data.keyword
            text := resolved_text data } := by
  unfold map_to_usage_entry at hm
  cases hts : parse_timestamp (data.timestamp.getD "") with
  | none => rw [hts] at hm; cases hm
  | some ts =>
    rw [hts] at hm
    simp only at hm
    by_cases hz : (extract_tokens data).input_tokens = 0 ∧
        (extract_tokens data).output_tokens = 0 ∧
        (extract_tokens data).cache_creation_tokens = 0 ∧
        (extract_tokens data).cache_read_tokens = 0
    · rw [if_pos hz] at hm; cases hm
    · rw [if_neg hz] at hm
      exact ⟨ts, rfl, hz, (Option.some.inj hm).symm⟩

/-- Claim C2: `_map_to_usage_entry` returns nothing for a record whose four
extracted token counts are all zero, and consequently no entry whose
`input_tokens`, `output_tokens`, `cache_creation_tokens` and
`cache_read_tokens` are all zero ever appears in the output of
`load_usage_entries`, for every input record set. -/
theorem claim_C2_zero_tokens_dropped :
    (∀ (data : RawRecord) (mode : CostMode),
      (extract_tokens data).input_tokens = 0 → (extract_tokens data).output_tokens = 0 →
      (extract_tokens data).cache_creation_tokens = 0 →
      (extract_tokens data).cache_read_tokens = 0 →
      map_to_usage_entry data mode = none) ∧
    ∀ (files : List (List RawRecord)) (hours_back : Option Nat) (now : Int)
      (mode : CostMode) (include_raw : Bool) (e : UsageEntry),
      e ∈ (load_usage_entries files hours_back now mode include_raw).1 →
      ¬(e.input_tokens = 0 ∧ e.output_tokens = 0 ∧
        e.cache_creation_tokens = 0 ∧ e.cache_read_tokens = 0) := by
  constructor
  · intro data mode h1 h2 h3 h4
    unfold map_to_usage_entry
    cases parse_timestamp (data.timestamp.getD "") with
    | none => rfl
    | some ts => simp only; rw [if_pos ⟨h1, h2, h3, h4⟩]
  · intro files hb now mode ir e hmem hzero
    unfold load_usage_entries at hmem
    by_cases hemp : files.isEmpty
    · simp [hemp] at hmem
    · simp only [hemp, Bool.false_eq_true, if_false] at hmem
      rw [List.mem_insertionSort] at hmem
      rw [process_files_entries] at hmem
      obtain ⟨d, _, hmap⟩ := List.mem_filterMap.mp hmem
      obtain ⟨ts, _, hnz, he⟩ := map_to_usage_entry_eq_some hmap
      rw [he] at hzero
      exact hnz hzero

/-- A record with a parseable timestamp and no token fields at all: every
extracted count is zero. -/
def c2zeroRec : RawRecord := { timestamp := some "100" }

/-- A record with a parseable timestamp and one non-zero token count. -/
def c2rec : RawRecord := { timestamp := some "100", input_tokens := some 1 }

/-- The entry `c2rec` maps to. -/
def c2entry : UsageEntry :=
  { timestamp := 100, input_tokens := 1, output_tokens := 0,
    cache_creation_tokens := 0, cache_read_tokens := 0, cost_usd := 1,
    model := "unknown", message_id := "", request_id := "unknown",
    keyword := none, text := "" }

/-- Witness for claim C2 at concrete inputs: the all-zero record `c2zeroRec`
maps to nothing, and the entry emitted for `c2rec` is not all-zero. -/
theorem claim_C2_witness :
    map_to_usage_entry c2zeroRec CostMode.auto = none ∧
    ¬(c2entry.input_tokens = 0 ∧ c2entry.output_tokens = 0 ∧
      c2entry.cache_creation_tokens = 0 ∧ c2entry.cache_read_tokens = 0) :=
  ⟨claim_C2_zero_tokens_dropped.1 c2zeroRec CostMode.auto rfl rfl rfl rfl,
   claim_C2_zero_tokens_dropped.2 [[c2rec]] none 0 CostMode.auto false c2entry
     (by decide)⟩

/-! ### Claims C4 and C7: keyword derivation and length -/

/-- The join step of keyword derivation as the claim states it: the full
text's words joined when the text has at most 5 words, else the first 3
words joined. -/
def joined_spec (t : String) : String :=
  if (py_split_words t).length ≤ 5 then String.intercalate " " (py_split_words t)
  else String.intercalate " " ((py_split_words t).take 3)

/-- The source's `derive_keyword` computes exactly the claim's join followed
by the 37-characters-plus-ellipsis truncation (the source's `words[:5]` in
the ≤ 5 branch is the whole word list). -/
theorem derive_keyword_eq (t : String) :
    derive_keyword t =
      if (joined_spec t).length > 40 then pySlice (joined_spec t) 37 ++ "..."
      else joined_spec t := by
  unfold derive_keyword joined_spec
  by_cases h : (py_split_words t).length ≤ 5
  · simp [h, List.take_of_length_le h]
  · simp [h]

/-- Python slicing never yields more characters than requested. -/
theorem pySlice_length (s : String) (n : Nat) :
    (pySlice s n).length = min n s.length := by
  unfold pySlice
  rw [String.length_mk]
  exact List.length_take _ _

/-- A derived keyword is never longer than 40 characters. -/
theorem derive_keyword_length_le (t : String) : (derive_keyword t).length ≤ 40 := by
  rw [derive_keyword_eq]
  by_cases h : (joined_spec t).length > 40
  · simp only [h, if_true]
    rw [String.length_append, pySlice_length]
    have : ("..." : String).length = 3 := rfl
    omega
  · simp only [h, if_false]
    omega

/-- Claim C4: for every record with no explicit (truthy) keyword and
non-empty resolved linked text that maps to an entry, the entry's keyword is
the full text's words joined when the text has at most 5 words, else the
first 3 words joined; and when that string exceeds 40 characters it is
replaced by its first 37 characters followed by the 3-character ellipsis
marker "...", for a total length of exactly 40. -/
theorem claim_C4_keyword_derivation (data : RawRecord) (mode : CostMode)
    (e : UsageEntry) (hkw : truthy data.keyword = none)
    (hne : resolved_text data ≠ "")
    (hm : map_to_usage_entry data mode = some e) :
    ((joined_spec (resolved_text data)).length ≤ 40 →
      e.keyword = some (joined_spec (resolved_text data))) ∧
    ((joined_spec (resolved_text data)).length > 40 →
      e.keyword = some (pySlice (joined_spec (resolved_text data)) 37 ++ "...") ∧
      (pySlice (joined_spec (resolved_text data)) 37 ++ "...").length = 40) := by
  obtain ⟨ts, _, _, he⟩ := map_to_usage_entry_eq_some hm
  have hk : e.keyword = some (derive_keyword (resolved_text data)) := by
    rw [he]
    simp [hkw, hne]
  rw [derive_keyword_eq] at hk
  constructor
  · intro hle
    rw [if_neg (by omega)] at hk
    exact hk
  · intro hgt
    rw [if_pos hgt] at hk
    refine ⟨hk, ?_⟩
    rw [String.length_append, pySlice_length]
    have : ("..." : String).length = 3 := rfl
    omega

/-- A record whose message content is an 8-word text, deriving the keyword
"a b c". -/
def c4rec : RawRecord :=
  { timestamp := some "100", input_tokens := some 1,
    message := some { content := some (Content.str "a b c d e f g h") } }

/-- The entry `c4rec` maps to. -/
def c4entry : UsageEntry :=
  { timestamp := 100, input_tokens := 1, output_tokens := 0,
    cache_creation_tokens := 0, cache_read_tokens := 0, cost_usd := 1,
    model := "unknown", message_id := "", request_id := "unknown",
    keyword := some "a b c", text := "a b c d e f g h" }

/-- Witness for claim C4 at a concrete input: the 8-word text
"a b c d e f g h" derives keyword "a b c". -/
theorem claim_C4_witness :
    truthy c4rec.keyword = none ∧ resolved_text c4rec ≠ "" ∧
    map_to_usage_entry c4rec CostMode.auto = some c4entry ∧
    (((joined_spec (resolved_text c4rec)).length ≤ 40 →
      c4entry.keyword = some (joined_spec (resolved_text c4rec))) ∧
    ((joined_spec (resolved_text c4rec)).length > 40 →
      c4entry.keyword = some (pySlice (joined_spec (resolved_text c4rec)) 37 ++ "...") ∧
      (pySlice (joined_spec (resolved_text c4rec)) 37 ++ "...").length = 40)) :=
  ⟨rfl, by decide, by decide,
   claim_C4_keyword_derivation c4rec CostMode.auto c4entry rfl (by decide) (by decide)⟩

/-- Claim C7 (amended): a keyword taken verbatim from a truthy explicit
`keyword` field of the raw record is carried unchanged — with no length
bound — while a keyword the mapper derives (no truthy explicit keyword) is
at most 40 characters long. -/
theorem claim_C7_amended (data : RawRecord) (mode : CostMode) (e : UsageEntry)
    (hm : map_to_usage_entry data mode = some e) :
    (truthy data.keyword ≠ none → e.keyword = data.keyword) ∧
    (truthy data.keyword = none →
      ∀ kw, e.keyword = some kw → kw.length ≤ 40) := by
  obtain ⟨ts, _, _, he⟩ := map_to_usage_entry_eq_some hm
  constructor
  · intro hne
    rw [he]
    simp [hne]
  · intro hnone kw hkw
    have hk : e.keyword =
        (if truthy data.keyword = none ∧ resolved_text data ≠ "" then
          some (derive_keyword (resolved_text data)) else data.keyword) := by
      rw [he]
    rw [hk] at hkw
    by_cases ht : resolved_text data = ""
    · rw [if_neg fun hc => hc.2 ht] at hkw
      cases hdk : data.keyword with
      | none => rw [hdk] at hkw; cases hkw
      | some s =>
        rw [hdk] at hkw hnone
        have hs : s = "" := by
          by_cases hs : s = ""
          · exact hs
          · simp [truthy, hs] at hnone
        cases hkw
        simp [hs]
    · rw [if_pos ⟨hnone, ht⟩] at hkw
      cases hkw
      exact derive_keyword_length_le _

/-- A 50-character explicit keyword. -/
def c7kw : String := "kkkkkkkkkkkkkkkkkkkkkkkkkkkkkkkkkkkkkkkkkkkkkkkkkk"

/-- A record carrying the 50-character explicit keyword `c7kw`. -/
def c7rec : RawRecord :=
  { timestamp := some "100", input_tokens := some 1, keyword := some c7kw }

/-- Claim C7 is false as stated: the pipeline emits an entry whose keyword,
taken verbatim from the record's explicit `keyword` field, is 50 characters
long — the 40-character ellipsis truncation is applied only to derived
keywords, never to explicit ones. -/
theorem claim_C7_counterexample :
    ((load_usage_entries [[c7rec]] none 0 CostMode.auto false).1.map
      UsageEntry.keyword) = [some c7kw] ∧ c7kw.length = 50 := by
  constructor
  · rfl
  · decide

/-- The entry `c7rec` maps to: the explicit 50-character keyword verbatim. -/
def c7entry : UsageEntry :=
  { timestamp := 100, input_tokens := 1, output_tokens := 0,
    cache_creation_tokens := 0, cache_read_tokens := 0, cost_usd := 1,
    model := "unknown", message_id := "", request_id := "unknown",
    keyword := some c7kw, text := "" }

/-- Witness for the amended claim C7 at a concrete input: the explicit
50-character keyword of `c7rec` passes through verbatim. -/
theorem claim_C7_witness :
    map_to_usage_entry c7rec CostMode.auto = some c7entry ∧
    ((truthy c7rec.keyword ≠ none → c7entry.keyword = c7rec.keyword) ∧
     (truthy c7rec.keyword = none →
       ∀ kw, c7entry.keyword = some kw → kw.length ≤ 40)) :=
  ⟨by decide, claim_C7_amended c7rec CostMode.auto c7entry (by decide)⟩

/-! ### Claim C8: two-pass user-text linking -/

/-- Whether a record stores something under key `u` in pass 1: it is a user
record whose uuid is `u` with non-empty extracted text. -/
def stores_key (r : RawRecord) (u : String) : Bool :=
  (r.type == some "user") && (r.uuid == some u) &&
    !(extract_content_text (r.message.bind Message.content) == "")

/-- Pass-1 steps over records that do not store key `u` leave the lookup for
`u` unchanged. -/
theorem pass1_lookup_skip (u : String) (hu : u ≠ "") :
    ∀ (ys : List RawRecord) (m : List (String × String)),
      (∀ r ∈ ys, stores_key r u = false) →
      mapLookup (ys.foldl pass1_step m) u = mapLookup m u
  | [], _, _ => rfl
  | r :: ys, m, hys => by
    have hr : stores_key r u = false := hys r (List.mem_cons_self r ys)
    have htail : ∀ x ∈ ys, stores_key x u = false :=
      fun x hx => hys x (List.mem_cons_of_mem r hx)
    rw [List.foldl_cons]
    rw [pass1_lookup_skip u hu ys (pass1_step m r) htail]
    unfold pass1_step
    by_cases htype : r.type = some "user"
    · simp only [htype, if_true]
      cases huu : r.uuid with
      | none => rfl
      | some v =>
        dsimp only
        by_cases hcond : v ≠ "" ∧
            extract_content_text (r.message.bind Message.content) ≠ ""
        · have hvu : v ≠ u := by
            intro hveq
            rw [stores_key, htype, huu, hveq] at hr
            simp [hcond.2] at hr
          rw [if_pos hcond]
          unfold mapLookup
          rw [List.find?_cons_of_neg _ (by simp [hvu])]
        · rw [if_neg hcond]
    · simp only [htype, if_false]

/-- A user record with truthy uuid `u` and truthy extracted text `t` stores
`(u, t)` in pass 1. -/
theorem pass1_step_stores {userRec : RawRecord} {u t : String}
    (hut : userRec.type = some "user") (huu : userRec.uuid = some u)
    (hu : u ≠ "")
    (ht : extract_content_text (userRec.message.bind Message.content) = t)
    (htne : t ≠ "") (m : List (String × String)) :
    pass1_step m userRec = (u, t) :: m := by
  unfold pass1_step
  rw [ht] at *
  simp [hut, huu, hu, ht, htne]

/-- Claim C8: for every file, after pass 1 stores each user record's text
keyed by its own uuid, pass 2 attaches the stored text to every assistant
record whose `parentUuid` matches a stored key, before the record is mapped,
regardless of how far apart the two lines are in the file: for any prefix,
gap and suffix around the last user record storing key `u`, the linker
rewrites the assistant record's `_user_text` to the stored text, and the
processing step then maps exactly that linked record (appending it to the
raw list and its mapped entry, if any, to the entry list). -/
theorem claim_C8_two_pass_linking (pre mid post : List RawRecord)
    (userRec asstRec : RawRecord) (u t : String) (mode : CostMode)
    (cutoff : Option Int) (st : PipeState)
    (hut : userRec.type = some "user") (huu : userRec.uuid = some u)
    (hu : u ≠ "")
    (ht : extract_content_text (userRec.message.bind Message.content) = t)
    (htne : t ≠ "")
    (hmid : ∀ r ∈ mid, stores_key r u = false)
    (hpost : ∀ r ∈ post, stores_key r u = false)
    (hat : asstRec.type = some "assistant") (hap : asstRec.parentUuid = some u) :
    linkRecord (build_user_messages (pre ++ userRec :: (mid ++ asstRec :: post)))
        asstRec = { asstRec with user_text := some t } ∧
    (should_process_entry asstRec cutoff st.2.2 = true →
      (processRecord (build_user_messages (pre ++ userRec :: (mid ++ asstRec :: post)))
          mode cutoff st asstRec).2.1 =
        st.2.1 ++ [{ asstRec with user_text := some t }] ∧
      (processRecord (build_user_messages (pre ++ userRec :: (mid ++ asstRec :: post)))
          mode cutoff st asstRec).1 =
        st.1 ++ (map_to_usage_entry { asstRec with user_text := some t } mode).toList) := by
  have hasst : stores_key asstRec u = false := by
    rw [stores_key, hat]
    rfl
  have hrest : ∀ r ∈ mid ++ asstRec :: post, stores_key r u = false := by
    intro r hr
    rcases List.mem_append.mp hr with hin | hin
    · exact hmid r hin
    · rcases List.mem_cons.mp hin with hin | hin
      · rw [hin]; exact hasst
      · exact hpost r hin
  have hlookup :
      mapLookup (build_user_messages (pre ++ userRec :: (mid ++ asstRec :: post))) u =
        some t := by
    unfold build_user_messages
    rw [List.foldl_append, List.foldl_cons]
    rw [pass1_step_stores hut huu hu ht htne]
    rw [pass1_lookup_skip u hu _ _ hrest]
    unfold mapLookup
    rw [List.find?_cons_of_pos _ (by simp)]
    rfl
  have hlink : linkRecord
      (build_user_messages (pre ++ userRec :: (mid ++ asstRec :: post))) asstRec =
      { asstRec with user_text := some t } := by
    unfold linkRecord
    rw [hat, hap]
    simp [hu, hlookup]
  refine ⟨hlink, fun hsp => ?_⟩
  unfold processRecord
  rw [hsp, if_pos rfl, hlink]
  cases hm : map_to_usage_entry { asstRec with user_text := some t } mode <;>
    simp [hm]

/-- A user record storing "fix the login bug please" under uuid "u1". -/
def c8user : RawRecord :=
  { type := some "user", uuid := some "u1",
    message := some { content := some (Content.str "fix the login bug please") } }

/-- An assistant record whose `parentUuid` points at `c8user`. -/
def c8asst : RawRecord :=
  { type := some "assistant", parentUuid := some "u1", timestamp := some "50",
    input_tokens := some 3 }

/-- Witness for claim C8 at a concrete file: the assistant record `c8asst` is
linked to the text stored by the earlier user record `c8user` and mapped in
linked form. -/
theorem claim_C8_witness :
    c8user.type = some "user" ∧ c8user.uuid = some "u1" ∧ ("u1" : String) ≠ "" ∧
    extract_content_text (c8user.message.bind Message.content) =
      "fix the login bug please" ∧
    ("fix the login bug please" : String) ≠ "" ∧
    c8asst.type = some "assistant" ∧ c8asst.parentUuid = some "u1" ∧
    (linkRecord (build_user_messages ([] ++ c8user :: ([] ++ c8asst :: []))) c8asst =
        { c8asst with user_text := some "fix the login bug please" } ∧
      (should_process_entry c8asst none ((([], [], []) : PipeState)).2.2 = true →
        (processRecord (build_user_messages ([] ++ c8user :: ([] ++ c8asst :: [])))
            CostMode.auto none ([], [], []) c8asst).2.1 =
          (([], [], []) : PipeState).2.1 ++
            [{ c8asst with user_text := some "fix the login bug please" }] ∧
        (processRecord (build_user_messages ([] ++ c8user :: ([] ++ c8asst :: [])))
            CostMode.auto none ([], [], []) c8asst).1 =
          (([], [], []) : PipeState).1 ++
            (map_to_usage_entry
              { c8asst with user_text := some "fix the login bug please" }
              CostMode.auto).toList)) :=
  ⟨rfl, rfl, by decide, rfl, by decide, rfl, rfl,
   claim_C8_two_pass_linking [] [] [] c8user c8asst "u1" "fix the login bug please"
     CostMode.auto none ([], [], []) rfl rfl (by decide) rfl (by decide)
     (by simp) (by simp) rfl rfl⟩

/-! ### Claims C5 and C9: the keyword patch -/

/-- The patch applied to one parsed entry: set `keyword` when the id
matches, leave the entry alone otherwise. -/
def patch_entry (message_id keyword : String) (e : List (String × JVal)) :
    List (String × JVal) :=
  if entry_match_id e message_id then jSet e "keyword" (JVal.vstr keyword) else e

/-- The read loop of the keyword patch computes the patched entry list and
whether any entry matched, for any starting accumulator. -/
theorem patch_fold (message_id keyword : String) :
    ∀ (file : List LogLine) (ls : List (List (String × JVal))) (b : Bool),
      file.foldl (patch_read_step message_id keyword) (ls, b) =
        (ls ++ (parsed_entries file).map (patch_entry message_id keyword),
         b || (parsed_entries file).any fun e => entry_match_id e message_id)
  | [], ls, b => by simp [parsed_entries]
  | LogLine.blank :: file, ls, b => by
    rw [List.foldl_cons]
    have hstep : patch_read_step message_id keyword (ls, b) LogLine.blank = (ls, b) := rfl
    rw [hstep, patch_fold message_id keyword file ls b]
    simp [parsed_entries]
  | LogLine.malformed s :: file, ls, b => by
    rw [List.foldl_cons]
    have hstep : patch_read_step message_id keyword (ls, b) (LogLine.malformed s) =
        (ls, b) := rfl
    rw [hstep, patch_fold message_id keyword file ls b]
    simp [parsed_entries]
  | LogLine.entry e :: file, ls, b => by
    rw [List.foldl_cons]
    by_cases hmatch : entry_match_id e message_id = true
    · have hstep : patch_read_step message_id keyword (ls, b) (LogLine.entry e) =
          (ls ++ [jSet e "keyword" (JVal.vstr keyword)], true) := by
        simp [patch_read_step, hmatch]
      rw [hstep, patch_fold message_id keyword file _ _]
      simp [parsed_entries, patch_entry, hmatch]
    · have hstep : patch_read_step message_id keyword (ls, b) (LogLine.entry e) =
          (ls ++ [e], b) := by
        simp [patch_read_step, hmatch]
      rw [hstep, patch_fold message_id keyword file _ _]
      simp [parsed_entries, patch_entry, hmatch]

/-- Setting a key makes `get` on that key return the new value. -/
theorem jGet_jSet_self (e : List (String × JVal)) (k : String) (v : JVal) :
    jGet (jSet e k v) k = some v := by
  unfold jSet jGet
  by_cases hf : (e.find? fun p => p.1 = k).isSome = true
  · rw [if_pos hf, List.find?_map]
    obtain ⟨x, hx⟩ := Option.isSome_iff_exists.mp hf
    have hpred : ((fun (p : String × JVal) => decide (p.1 = k)) ∘
        fun p => if p.1 = k then (k, v) else p) =
        fun (p : String × JVal) => decide (p.1 = k) := by
      funext p
      by_cases hp : p.1 = k
      · simp [hp]
      · simp [hp]
    rw [hpred, hx]
    have hxk : x.1 = k := by simpa using List.find?_some hx
    simp [hxk]
  · rw [if_neg hf, List.find?_append]
    have hnone : (e.find? fun p => p.1 = k) = none := by
      cases h : e.find? fun p => p.1 = k with
      | none => rfl
      | some x => rw [h] at hf; simp at hf
    rw [hnone]
    simp

/-- Setting a key leaves `get` on every other key unchanged. -/
theorem jGet_jSet_ne (e : List (String × JVal)) (k : String) (v : JVal)
    (k' : String) (hk : k' ≠ k) : jGet (jSet e k v) k' = jGet e k' := by
  unfold jSet jGet
  by_cases hf : (e.find? fun p => p.1 = k).isSome = true
  · rw [if_pos hf, List.find?_map]
    have hpred : ((fun (p : String × JVal) => decide (p.1 = k')) ∘
        fun p => if p.1 = k then (k, v) else p) =
        fun (p : String × JVal) => decide (p.1 = k') := by
      funext p
      by_cases hp : p.1 = k
      · simp [hp, Ne.symm hk]
      · simp [hp]
    rw [hpred]
    cases h : e.find? fun p => p.1 = k' with
    | none => simp
    | some x =>
      have hxk : x.1 = k' := by simpa using List.find?_some h
      have hxne : ¬(x.1 = k) := by rw [hxk]; exact hk
      simp [hxne]
  · rw [if_neg hf, List.find?_append]
    have h2 : (([(k, v)] : List (String × JVal)).find? fun p => p.1 = k') = none := by
      simp [Ne.symm hk]
    rw [h2]
    cases e.find? fun p => p.1 = k' <;> simp

/-- Claim C9: for every existing usage log and every `message_id` matching no
parseable entry in it, `add_keyword_to_existing_entry` reports "not found"
(returns false) and leaves the log exactly as it was — the function returns
before any write occurs. -/
theorem claim_C9_missing_id (file : List LogLine) (message_id keyword : String)
    (habs : ∀ e ∈ parsed_entries file, entry_match_id e message_id = false) :
    add_keyword_to_existing_entry file message_id keyword = (false, file) := by
  unfold add_keyword_to_existing_entry
  rw [patch_fold message_id keyword file [] false]
  have hany : ((parsed_entries file).any fun e => entry_match_id e message_id) = false := by
    rw [List.any_eq_false]
    intro e he
    simp [habs e he]
  simp [hany]

/-- Claim C5 (amended): for every existing usage log and every `message_id`
matching at least one parseable entry line, `add_keyword_to_existing_entry`
returns true and rewrites the log to exactly the parseable entry lines, in
order, with `keyword` set to the given value on every matching entry; every
other field of every parsed entry is unchanged.  Blank lines and lines that
fail JSON parsing are dropped by the rewrite (which is why the original
claim's "every other line of the file is unchanged" fails). -/
theorem claim_C5_keyword_patch (file : List LogLine) (message_id keyword : String)
    (hfound : ((parsed_entries file).any fun e => entry_match_id e message_id) = true) :
    add_keyword_to_existing_entry file message_id keyword =
      (true, ((parsed_entries file).map (patch_entry message_id keyword)).map
        LogLine.entry) ∧
    (∀ e ∈ parsed_entries file, ∀ k, k ≠ "keyword" →
      jGet (patch_entry message_id keyword e) k = jGet e k) ∧
    (∀ e ∈ parsed_entries file, entry_match_id e message_id = true →
      jGet (patch_entry message_id keyword e) "keyword" = some (JVal.vstr keyword)) := by
  refine ⟨?_, ?_, ?_⟩
  · unfold add_keyword_to_existing_entry
    rw [patch_fold message_id keyword file [] false]
    simp [hfound]
  · intro e _ k hkne
    unfold patch_entry
    by_cases hmatch : entry_match_id e message_id = true
    · rw [if_pos hmatch]
      exact jGet_jSet_ne e "keyword" (JVal.vstr keyword) k hkne
    · rw [if_neg hmatch]
  · intro e _ hmatch
    unfold patch_entry
    rw [if_pos hmatch]
    exact jGet_jSet_self e "keyword" (JVal.vstr keyword)

/-- A parseable log entry with id "m1". -/
def c5ent : List (String × JVal) :=
  [("message_id", JVal.vstr "m1"), ("input_tokens", JVal.vnum 300)]

/-- A log holding one parseable entry and one malformed line. -/
def c5file : List LogLine := [LogLine.entry c5ent, LogLine.malformed "CORRUPT"]

/-- Claim C5 is false as stated: patching a log that contains a malformed
line succeeds (returns true) but the rewritten log no longer contains that
line — the rewrite drops every line that fails JSON parsing, so "every other
line of the file is unchanged" does not hold. -/
theorem claim_C5_counterexample :
    (add_keyword_to_existing_entry c5file "m1" "urgent").1 = true ∧
    LogLine.malformed "CORRUPT" ∈ c5file ∧
    LogLine.malformed "CORRUPT" ∉ (add_keyword_to_existing_entry c5file "m1" "urgent").2 := by
  refine ⟨rfl, ?_, ?_⟩
  · simp [c5file]
  · show LogLine.malformed "CORRUPT" ∉
      [LogLine.entry [("message_id", JVal.vstr "m1"), ("input_tokens", JVal.vnum 300),
        ("keyword", JVal.vstr "urgent")]]
    simp

/-- A log holding one parseable matching entry and one blank line. -/
def c5wfile : List LogLine := [LogLine.entry c5ent, LogLine.blank]

/-- Witness for the amended claim C5 at a concrete log: patching "m1" in
`c5wfile` rewrites it to the patched entry lines. -/
theorem claim_C5_witness :
    ((parsed_entries c5wfile).any fun e => entry_match_id e "m1") = true ∧
    (add_keyword_to_existing_entry c5wfile "m1" "urgent" =
      (true, ((parsed_entries c5wfile).map (patch_entry "m1" "urgent")).map
        LogLine.entry) ∧
    (∀ e ∈ parsed_entries c5wfile, ∀ k, k ≠ "keyword" →
      jGet (patch_entry "m1" "urgent" e) k = jGet e k) ∧
    (∀ e ∈ parsed_entries c5wfile, entry_match_id e "m1" = true →
      jGet (patch_entry "m1" "urgent" e) "keyword" = some (JVal.vstr "urgent"))) :=
  ⟨rfl, claim_C5_keyword_patch c5wfile "m1" "urgent" rfl⟩

/-- A log holding one parseable entry whose id is not "missing". -/
def c9file : List LogLine := [LogLine.entry c5ent]

/-- Witness for claim C9 at a concrete log: patching an absent id returns
false and leaves the log identical. -/
theorem claim_C9_witness :
    (∀ e ∈ parsed_entries c9file, entry_match_id e "missing" = false) ∧
    add_keyword_to_existing_entry c9file "missing" "urgent" = (false, c9file) :=
  ⟨by decide, claim_C9_missing_id c9file "missing" "urgent" (by decide)⟩

end ClaudeMonitor
